import Mathlib

/-!
Verification development for the muse-lsl streaming module (muselsl/stream.py).

The Python source is shallowly embedded as pure Lean functions:

* the sample router fixed_push becomes a function from the batch shape, the
  timestamp vector, a wall-clock reading, and an outlet behaviour (which push
  calls succeed) to the list of attempted push calls plus an
  exception-escaped flag;
* device discovery (list_muses, the bluetoothctl parser, find_muse) becomes
  functions over lists of characters and device descriptors;
* the session controller stream becomes a function from its arguments and the
  environment outcomes (discovery result, connect success, routed sample
  batches, supervisor-loop exit cause) to the ordered trace of observable
  events (channel opens and closes, session construction, connect, start,
  stop, disconnect, status reports, subprocess URI launches);
* one iteration of the streaming supervisor loop becomes a decision function
  on the current time, the loop start time, and the optional last-sample
  timestamp.

Times are modelled as integers; Python local-scope destruction of the outlet
dictionary at function return is modelled as channel-close events emitted at
function exit.
-/

namespace Muselsl

/-! ### Sample router: muselsl/stream.py, fixed_push (lines 162-204) -/

/-- Value pushed by a single outlet.push_sample call: either a vector of
numbers (a matrix column, a 1-D array, or one element of a Python list), the
whole Python list object, or some other opaque object. -/
inductive PVal
  | ints (v : List Int)
  | wholeList (s : List (List Int))
  | wholeOther
deriving DecidableEq

/-- One attempted outlet.push_sample call: the value, the explicit timestamp
argument if one was passed, and whether the call was issued from the
degraded fallback handler. -/
structure Push where
  val : PVal
  ts : Option Int
  fb : Bool
deriving DecidableEq

/-- Shape of the data argument of fixed_push: a 2-D numpy array given by its
list of columns, a 1-D numpy array, a Python list of samples, or any other
object. -/
inductive NpData
  | arr2 (cols : List (List Int))
  | arr1 (v : List Int)
  | pylist (samples : List (List Int))
  | other
deriving DecidableEq

/-- Main-path loop of fixed_push over columns (2-D branch) or list elements
(list branch): push item i with timestamps i when i is in range, else with no
explicit timestamp.  pushOk says which push calls (numbered globally by k)
succeed; on the first failing call the loop stops and the exception flag is
set.  Returns the attempted pushes, the next call number, and the flag. -/
def runMain (pushOk : Nat → Bool) (timestamps : List Int) :
    List (List Int) → Nat → Nat → List Push × Nat × Bool
  | [], _, k => ([], k, false)
  | col :: rest, i, k =>
    let p : Push := ⟨PVal.ints col, timestamps[i]?, false⟩
    if pushOk k then
      let r := runMain pushOk timestamps rest (i + 1) (k + 1)
      (p :: r.1, r.2)
    else ([p], k + 1, true)

/-- Fallback loop of fixed_push for 2-D data (lines 199-200): push every
column with timestamps i when in range, else with the wall-clock reading;
the bare except around it stops the loop at the first failing call and
swallows the failure. -/
def runFb (pushOk : Nat → Bool) (timestamps : List Int) (wall : Int) :
    List (List Int) → Nat → Nat → List Push
  | [], _, _ => []
  | col :: rest, i, k =>
    let p : Push := ⟨PVal.ints col, some (timestamps.getD i wall), true⟩
    if pushOk k then p :: runFb pushOk timestamps wall rest (i + 1) (k + 1)
    else [p]

/-- Embedding of fixed_push (lines 162-204).  Returns the ordered list of
attempted push calls and whether an exception escaped the function (the
outer handler catches any routing failure and the fallback is wrapped in a
bare except, so the flag is false on every path, mirroring the source). -/
def fixed_push (pushOk : Nat → Bool) (wall : Int) (data : NpData)
    (timestamps : List Int) : List Push × Bool :=
  match data with
  | NpData.arr2 cols =>
    let r := runMain pushOk timestamps cols 0 0
    if r.2.2 then (r.1 ++ runFb pushOk timestamps wall cols 0 r.2.1, false)
    else (r.1, false)
  | NpData.arr1 v =>
    let p : Push := ⟨PVal.ints v, timestamps.head?, false⟩
    if pushOk 0 then ([p], false)
    else ([p, ⟨PVal.ints v, some (timestamps.headD wall), true⟩], false)
  | NpData.pylist samples =>
    let r := runMain pushOk timestamps samples 0 0
    if r.2.2 then
      (r.1 ++ [⟨PVal.wholeList samples, some (timestamps.headD wall), true⟩], false)
    else (r.1, false)
  | NpData.other =>
    let p : Push := ⟨PVal.wholeOther, timestamps.head?, false⟩
    if pushOk 0 then ([p], false)
    else ([p, ⟨PVal.wholeOther, some (timestamps.headD wall), true⟩], false)

/-- Push calls of a router invocation issued on the main path. -/
def mainPushes (pushOk : Nat → Bool) (wall : Int) (data : NpData)
    (timestamps : List Int) : List Push :=
  (fixed_push pushOk wall data timestamps).1.filter (fun p => !p.fb)

/-- Push calls of a router invocation issued from the degraded fallback
handler. -/
def fbPushes (pushOk : Nat → Bool) (wall : Int) (data : NpData)
    (timestamps : List Int) : List Push :=
  (fixed_push pushOk wall data timestamps).1.filter (fun p => p.fb)

/-! ### Device discovery: list_muses (lines 31-67), bluetoothctl parsing
(lines 70-147), find_muse (lines 151-158) -/

/-- Character-list equality test on an initial segment: seqPre pat l is true
when pat occurs at the start of l.  Used to embed both the Python substring
test and the leading part of regular-expression search. -/
def seqPre : List Char → List Char → Bool
  | [], _ => true
  | _ :: _, [] => false
  | a :: as, b :: bs => (a == b) && seqPre as bs

/-- Python substring containment test (the in operator on strings): true when
pat occurs contiguously somewhere in l. -/
def seqIn (pat : List Char) : List Char → Bool
  | [] => pat.isEmpty
  | c :: rest => seqPre pat (c :: rest) || seqIn pat rest

/-- The product-identifier substring Muse used by every discovery filter. -/
def museL : List Char := ['M', 'u', 's', 'e']

/-- A device dictionary as returned by an adapter scan: the name key may be
missing or empty (modelled none), plus a MAC address. -/
structure ScanDevice where
  name : Option (List Char)
  address : List Char
deriving DecidableEq

/-- A device descriptor as returned by discovery: name and MAC address. -/
structure DeviceDesc where
  name : List Char
  address : List Char
deriving DecidableEq

/-- Embedding of the list comprehension at line 64: keep scan results whose
name is truthy and contains the substring Muse. -/
def adapterFilter (devices : List ScanDevice) : List DeviceDesc :=
  devices.filterMap (fun d =>
    match d.name with
    | some n => if !n.isEmpty && seqIn museL n then some ⟨n, d.address⟩ else none
    | none => none)

/-- Embedding of the search for the regular expression Muse followed by
non-whitespace characters (line 133): leftmost occurrence of Muse, extended
greedily through non-whitespace. -/
def findMuseName : List Char → Option (List Char)
  | [] => none
  | c :: rest =>
    if seqPre museL (c :: rest) then
      some (museL ++ ((c :: rest).drop 4).takeWhile (fun ch => !ch.isWhitespace))
    else findMuseName rest

/-- Hexadecimal digit class of the MAC regular expression (case insensitive
flag at line 134). -/
def isHexChar (c : Char) : Bool :=
  c.isDigit || (('A' ≤ c) && (c ≤ 'F')) || (('a' ≤ c) && (c ≤ 'f'))

/-- Separator class of the MAC regular expression: colon or hyphen. -/
def isSepChar (c : Char) : Bool := (c == ':') || (c == '-')

/-- Match, at the start of the list, n repetitions of two hex digits plus a
separator, followed by a final pair of hex digits; return the matched
characters.  With n = 5 this is the MAC pattern of line 134. -/
def macGroups : Nat → List Char → Option (List Char)
  | 0, a :: b :: _ =>
    if isHexChar a && isHexChar b then some [a, b] else none
  | n + 1, a :: b :: s :: rest =>
    if isHexChar a && isHexChar b && isSepChar s then
      (macGroups n rest).map (fun m => a :: b :: s :: m)
    else none
  | _, _ => none

/-- Leftmost match of the MAC pattern in a line (line 134). -/
def findMac : List Char → Option (List Char)
  | [] => none
  | c :: rest =>
    match macGroups 5 (c :: rest) with
    | some m => some m
    | none => findMac rest

/-- Embedding of the per-line parsing in the bluetoothctl strategy
(lines 129-144): a line containing Muse yields a descriptor when both the
name pattern and the MAC pattern match, and is skipped otherwise. -/
def parseBtLine (l : List Char) : Option DeviceDesc :=
  if seqIn museL l then
    match findMuseName l, findMac l with
    | some n, some a => some ⟨n, a⟩
    | _, _ => none
  else none

/-- Embedding of the bluetoothctl device-list parsing loop of
_list_muses_bluetoothctl (lines 127-147), applied to the output lines of the
devices command.  The scan side effects carry no data and are omitted. -/
def parseBtctl (lines : List (List Char)) : List DeviceDesc :=
  lines.filterMap parseBtLine

/-- Backend tokens as requested by the caller of list_muses or stream. -/
inductive Backend
  | auto | gatt | bluemuse | bleak | bgapi
deriving DecidableEq

/-- Concrete backend tokens after helper.resolve_backend (an external
collaborator) has resolved the request. -/
inductive RBackend
  | gatt | bluemuse | bleak | bgapi
deriving DecidableEq

/-- Outcome of the adapter scan call at line 54: a device list, or a
BLE-layer error raised by pygatt. -/
inductive ScanOutcome
  | ok (devices : List ScanDevice)
  | bleError
deriving DecidableEq

/-- Result of list_muses: a device list (with a flag recording whether the
bluetoothctl fallback produced it), the external-discovery early return of
the bluemuse branch (line 45), or a propagated BLE error. -/
inductive ListMusesResult
  | muses (devices : List DeviceDesc) (usedFallback : Bool)
  | external
  | raised
deriving DecidableEq

/-- Embedding of list_muses after backend resolution (lines 39-67): bluemuse
returns without scanning; otherwise a successful scan is filtered by name,
and a BLE-layer scan failure falls back to the bluetoothctl strategy exactly
when the backend is gatt, and is re-raised otherwise (lines 56-62). -/
def list_muses_resolved (backend : RBackend) (scan : ScanOutcome)
    (btLines : List (List Char)) : ListMusesResult :=
  match backend with
  | RBackend.bluemuse => ListMusesResult.external
  | _ =>
    match scan with
    | ScanOutcome.ok devices => ListMusesResult.muses (adapterFilter devices) false
    | ScanOutcome.bleError =>
      if backend = RBackend.gatt then ListMusesResult.muses (parseBtctl btLines) true
      else ListMusesResult.raised

/-- Embedding of list_muses (lines 31-67) including the shortcut at
lines 33-35: a request of auto on a host where bluetoothctl is available
goes straight to the bluetoothctl strategy; every other request is resolved
and handled by list_muses_resolved.  The resolver, the scan outcome and the
bluetoothctl output lines are environment parameters. -/
def list_muses (backendReq : Backend) (btctlAvailable : Bool)
    (resolve : Backend → RBackend) (scan : ScanOutcome)
    (btLines : List (List Char)) : ListMusesResult :=
  if backendReq = Backend.auto ∧ btctlAvailable = true then
    ListMusesResult.muses (parseBtctl btLines) false
  else list_muses_resolved (resolve backendReq) scan btLines

/-- Python truthiness of an optional string argument: None and the empty
string are falsy. -/
def truthy : Option (List Char) → Bool
  | none => false
  | some s => !s.isEmpty

/-- Embedding of find_muse (lines 151-158) applied to the device list that
list_muses returned: with a truthy name, the first exact name match (None if
no device matches); otherwise the first discovered device, if any. -/
def find_muse (name : Option (List Char)) (muses : List DeviceDesc) :
    Option DeviceDesc :=
  match name with
  | some n =>
    if !n.isEmpty then muses.find? (fun m => m.name == n)
    else muses.head?
  | none => muses.head?

/-! ### Streaming supervisor loop: one iteration (lines 322-336) -/

/-- Decision taken by one iteration of the supervisor loop. -/
inductive LoopDecision
  | stopStale
  | stopSilent
  | sleepContinue
deriving DecidableEq

/-- Embedding of the body of the while loop at lines 324-336: when the
session object exposes a last-sample timestamp (hasattr check, modelled as
an Option), stop exactly when now minus that timestamp exceeds the
auto-disconnect delay; when it never has, stop exactly when now minus the
loop start time exceeds 300 seconds; in every other case sleep and repeat.
Times are modelled as integers and the delay constant as a parameter. -/
def loopStep (now startTime : Int) (lastTs : Option Int) (delay : Int) :
    LoopDecision :=
  match lastTs with
  | some ts =>
    if now - ts > delay then LoopDecision.stopStale else LoopDecision.sleepContinue
  | none =>
    if now - startTime > 300 then LoopDecision.stopSilent
    else LoopDecision.sleepContinue

/-! ### Session controller: stream (lines 208-366) -/

/-- Sensor modality tags. -/
inductive Modality
  | eeg | ppg | acc | gyro
deriving DecidableEq

/-- Cause of the supervisor loop exiting: the staleness break at line 331,
the silence break at line 334, or the KeyboardInterrupt handler at
line 338. -/
inductive ExitCause
  | stale
  | silent
  | interrupt
deriving DecidableEq

/-- Observable events of one call of stream, in program order. -/
inductive Ev
  | reportNoModalities
  | discover
  | openChannel (m : Modality)
  | constructSession (callbacks : List Modality)
  | connect
  | reportConnected
  | start
  | reportStreaming
  | push (m : Modality)
  | reportStale
  | reportSilent
  | reportInterrupted
  | stop
  | disconnect
  | reportDisconnected
  | reportFailedConnect
  | closeChannel (m : Modality)
  | uriToggle (m : Modality) (enabled : Bool)
  | reportTargeting
deriving DecidableEq

/-- Arguments of stream that steer the control flow modelled by the trace
(lines 208-222); the remaining source arguments (preset, disable_light,
lsl_time, log_level) are forwarded to collaborators and do not influence the
event structure. -/
structure StreamArgs where
  address : Option (List Char)
  backend : Backend
  name : Option (List Char)
  ppg_enabled : Bool
  acc_enabled : Bool
  gyro_enabled : Bool
  eeg_disabled : Bool
  retries : Nat
deriving DecidableEq

/-- Condition of the early rejection at line 224: EEG disabled and no other
modality enabled. -/
def noModality (a : StreamArgs) : Bool :=
  a.eeg_disabled && !a.ppg_enabled && !a.acc_enabled && !a.gyro_enabled

/-- Modalities whose channels are opened (lines 240-294) and whose push
callbacks are wired (lines 297-300), in source order. -/
def enabledChannels (a : StreamArgs) : List Modality :=
  (if !a.eeg_disabled then [Modality.eeg] else []) ++
  (if a.ppg_enabled then [Modality.ppg] else []) ++
  (if a.acc_enabled then [Modality.acc] else []) ++
  (if a.gyro_enabled then [Modality.gyro] else [])

/-- Status line printed on each loop exit path (lines 330, 333, 339). -/
def exitEvents : ExitCause → List Ev
  | ExitCause.stale => [Ev.reportStale]
  | ExitCause.silent => [Ev.reportSilent]
  | ExitCause.interrupt => [Ev.reportInterrupted]

/-- Events of the non-bluemuse path after an address is available
(lines 238-346): open the enabled channels, construct the session with the
push callbacks of exactly the enabled modalities, attempt connect; on
success report and start, run the supervisor loop during which the routed
batches are pushed, exit for the given cause, and run the finally block
(stop then disconnect) followed by the disconnect report; on failure report
the failed connect.  The channels close when the function scope is left,
after every report. -/
def connectedPhase (a : StreamArgs) (pushes : List Modality)
    (didConnect : Bool) (exit : ExitCause) : List Ev :=
  ((enabledChannels a).map Ev.openChannel) ++
  [Ev.constructSession (enabledChannels a), Ev.connect] ++
  (if didConnect then
    [Ev.reportConnected, Ev.start, Ev.reportStreaming] ++
    (pushes.map Ev.push) ++ exitEvents exit ++
    [Ev.stop, Ev.disconnect, Ev.reportDisconnected]
   else [Ev.reportFailedConnect]) ++
  ((enabledChannels a).map Ev.closeChannel)

/-- Events of the bluemuse branch (lines 349-366): four URI-scheme toggle
launches carrying the modality enablement, session construction with all
four callbacks None, connect (result ignored), the targeting report, and
start; no loop, no stop, no disconnect. -/
def bluemuseTrace (a : StreamArgs) : List Ev :=
  [Ev.uriToggle Modality.eeg (!a.eeg_disabled),
   Ev.uriToggle Modality.ppg a.ppg_enabled,
   Ev.uriToggle Modality.acc a.acc_enabled,
   Ev.uriToggle Modality.gyro a.gyro_enabled,
   Ev.constructSession [], Ev.connect, Ev.reportTargeting, Ev.start]

/-- Embedding of stream (lines 208-366) as its trace of observable events.
Environment parameters: muses is the device list discovery would return,
pushes are the modalities of the batches routed while streaming, didConnect
is the outcome of muse.connect, and exit is the cause for which the
supervisor loop ends.  An all-disabled request is rejected at once; on the
non-bluemuse path a falsy address triggers discovery and an unresolved
device ends the call; the bluemuse path never reaches the loop. -/
def stream (a : StreamArgs) (muses : List DeviceDesc) (pushes : List Modality)
    (didConnect : Bool) (exit : ExitCause) : List Ev :=
  if noModality a then [Ev.reportNoModalities]
  else if a.backend = Backend.bluemuse then bluemuseTrace a
  else if truthy a.address then connectedPhase a pushes didConnect exit
  else
    Ev.discover ::
      (match find_muse a.name muses with
       | none => []
       | some _ => connectedPhase a pushes didConnect exit)

/-! ### Theorems -/

/-- C5: on every iteration of the supervisor loop the stop conditions are
evaluated in order: with a last-sample timestamp exposed, the loop stops
exactly when now minus that timestamp exceeds the auto-disconnect delay;
with no last-sample timestamp ever observed, it stops exactly when now
minus the loop start time exceeds 300 seconds; in every other case it
sleeps and repeats. -/
theorem loopStep_stop_policy (now startTime delay : Int) (lastTs : Option Int) :
    (∀ ts, lastTs = some ts →
      ((now - ts > delay →
          loopStep now startTime lastTs delay = LoopDecision.stopStale) ∧
       (¬ now - ts > delay →
          loopStep now startTime lastTs delay = LoopDecision.sleepContinue))) ∧
    (lastTs = none →
      ((now - startTime > 300 →
          loopStep now startTime lastTs delay = LoopDecision.stopSilent) ∧
       (¬ now - startTime > 300 →
          loopStep now startTime lastTs delay = LoopDecision.sleepContinue))) := by
  constructor
  · rintro ts rfl
    constructor <;> intro h <;> simp [loopStep, h]
  · rintro rfl
    constructor <;> intro h <;> simp [loopStep, h]

/-- Witness for loopStep_stop_policy at concrete times. -/
theorem loopStep_stop_policy_witness :
    loopStep 400 0 none 10 = LoopDecision.stopSilent :=
  (loopStep_stop_policy 400 0 10 none).2 rfl |>.1 (by decide)

/-- C6: a stream request with every modality disabled is rejected at once:
the trace is the single nothing-to-stream report, so no discovery happens,
no channel is opened, no session is constructed, and no connect is
attempted. -/
theorem stream_no_modalities_rejected (a : StreamArgs) (muses : List DeviceDesc)
    (pushes : List Modality) (didConnect : Bool) (exit : ExitCause)
    (h : noModality a = true) :
    stream a muses pushes didConnect exit = [Ev.reportNoModalities] ∧
    Ev.discover ∉ stream a muses pushes didConnect exit ∧
    (∀ m, Ev.openChannel m ∉ stream a muses pushes didConnect exit) ∧
    (∀ cbs, Ev.constructSession cbs ∉ stream a muses pushes didConnect exit) ∧
    Ev.connect ∉ stream a muses pushes didConnect exit := by
  simp [stream, h]

/-- Witness for stream_no_modalities_rejected: EEG disabled and no other
modality enabled. -/
theorem stream_no_modalities_rejected_witness :
    stream ⟨none, Backend.gatt, none, false, false, false, true, 1⟩ [] []
      true ExitCause.stale = [Ev.reportNoModalities] :=
  (stream_no_modalities_rejected
    ⟨none, Backend.gatt, none, false, false, false, true, 1⟩ [] [] true
    ExitCause.stale (by decide)).1

/-- C8: when the resolved backend is gatt and the scan raises a BLE-layer
error, list_muses falls back exactly once to the bluetoothctl strategy and
returns its result; with any other resolved backend that performs a scan
the error propagates; the bluemuse backend never scans at all. -/
theorem list_muses_gatt_fallback (scan : List (List Char)) (b : RBackend) :
    (list_muses_resolved RBackend.gatt ScanOutcome.bleError scan =
       ListMusesResult.muses (parseBtctl scan) true) ∧
    (b ≠ RBackend.gatt → b ≠ RBackend.bluemuse →
       list_muses_resolved b ScanOutcome.bleError scan = ListMusesResult.raised) ∧
    (list_muses_resolved RBackend.bluemuse ScanOutcome.bleError scan =
       ListMusesResult.external) := by
  refine ⟨rfl, ?_, rfl⟩
  intro h1 h2
  cases b with
  | gatt => exact absurd rfl h1
  | bluemuse => exact absurd rfl h2
  | bleak => rfl
  | bgapi => rfl

/-- Witness for list_muses_gatt_fallback at backend bleak with empty
bluetoothctl output. -/
theorem list_muses_gatt_fallback_witness :
    list_muses_resolved RBackend.bleak ScanOutcome.bleError [] =
      ListMusesResult.raised :=
  (list_muses_gatt_fallback [] RBackend.bleak).2.1 (by decide) (by decide)

/-- C10: a stream request with backend bluemuse and at least one enabled
modality issues the four URI-scheme toggle launches, constructs the session
with no callbacks wired, calls connect and start, and returns: the trace is
independent of the connect outcome and of any loop exit cause, and contains
no streaming banner, no stop, no disconnect and no channel close. -/
theorem stream_bluemuse_path (a : StreamArgs) (muses : List DeviceDesc)
    (pushes : List Modality) (didConnect : Bool) (exit : ExitCause)
    (hmod : noModality a = false) (hb : a.backend = Backend.bluemuse) :
    stream a muses pushes didConnect exit =
      [Ev.uriToggle Modality.eeg (!a.eeg_disabled),
       Ev.uriToggle Modality.ppg a.ppg_enabled,
       Ev.uriToggle Modality.acc a.acc_enabled,
       Ev.uriToggle Modality.gyro a.gyro_enabled,
       Ev.constructSession [], Ev.connect, Ev.reportTargeting, Ev.start] ∧
    Ev.reportStreaming ∉ stream a muses pushes didConnect exit ∧
    Ev.stop ∉ stream a muses pushes didConnect exit ∧
    Ev.disconnect ∉ stream a muses pushes didConnect exit ∧
    (∀ m, Ev.closeChannel m ∉ stream a muses pushes didConnect exit) := by
  simp [stream, hmod, hb, bluemuseTrace]

/-- Witness for stream_bluemuse_path with EEG enabled, connect failing, and
an arbitrary exit cause. -/
theorem stream_bluemuse_path_witness :
    stream ⟨none, Backend.bluemuse, none, false, false, false, false, 1⟩ [] []
        false ExitCause.interrupt =
      [Ev.uriToggle Modality.eeg true, Ev.uriToggle Modality.ppg false,
       Ev.uriToggle Modality.acc false, Ev.uriToggle Modality.gyro false,
       Ev.constructSession [], Ev.connect, Ev.reportTargeting, Ev.start] :=
  (stream_bluemuse_path ⟨none, Backend.bluemuse, none, false, false, false, false, 1⟩
    [] [] false ExitCause.interrupt (by decide) rfl).1

/-- A pattern matching at the head of a list also matches somewhere in it. -/
theorem seqIn_of_seqPre (pat l : List Char) (h : seqPre pat l = true) :
    seqIn pat l = true := by
  cases l with
  | nil =>
    cases pat with
    | nil => rfl
    | cons a as => simp [seqPre] at h
  | cons c rest => simp [seqIn, h]

/-- Every pattern matches at the head of itself followed by anything. -/
theorem seqPre_append_self (pat t : List Char) : seqPre pat (pat ++ t) = true := by
  induction pat with
  | nil => rfl
  | cons a as ih => simp [seqPre, ih]

/-- The name extracted by the Muse regular expression starts with Muse. -/
theorem findMuseName_shape (l n : List Char) (h : findMuseName l = some n) :
    ∃ t, n = museL ++ t := by
  induction l with
  | nil => simp [findMuseName] at h
  | cons c rest ih =>
    rw [findMuseName] at h
    by_cases hp : seqPre museL (c :: rest) = true
    · rw [if_pos hp] at h
      exact ⟨_, (Option.some.injEq _ _ ▸ h).symm⟩
    · rw [if_neg hp] at h
      exact ih h

/-- Every descriptor produced from a bluetoothctl output line has a name
containing Muse. -/
theorem parseBtLine_name (l : List Char) (d : DeviceDesc)
    (h : parseBtLine l = some d) : seqIn museL d.name = true := by
  unfold parseBtLine at h
  by_cases hin : seqIn museL l = true
  · rw [if_pos hin] at h
    cases hn : findMuseName l with
    | none => rw [hn] at h; simp at h
    | some n =>
      cases ha : findMac l with
      | none => rw [hn, ha] at h; simp at h
      | some a =>
        rw [hn, ha] at h
        obtain ⟨t, ht⟩ := findMuseName_shape l n hn
        cases h
        subst ht
        exact seqIn_of_seqPre _ _ (seqPre_append_self museL t)
  · rw [if_neg hin] at h
    simp at h

/-- Every descriptor returned by the bluetoothctl strategy has a name
containing Muse. -/
theorem parseBtctl_names (lines : List (List Char)) :
    ∀ d ∈ parseBtctl lines, seqIn museL d.name = true := by
  intro d hd
  simp only [parseBtctl, List.mem_filterMap] at hd
  obtain ⟨l, _, h⟩ := hd
  exact parseBtLine_name l d h

/-- Every descriptor kept by the adapter-scan filter has a name containing
Muse. -/
theorem adapterFilter_names (devices : List ScanDevice) :
    ∀ d ∈ adapterFilter devices, seqIn museL d.name = true := by
  intro d hd
  simp only [adapterFilter, List.mem_filterMap] at hd
  obtain ⟨s, _, h⟩ := hd
  split at h
  · split at h
    · next hc =>
      cases h
      simp only [Bool.and_eq_true] at hc
      exact hc.2
    · simp at h
  · simp at h

/-- Name filtering of list_muses after backend resolution: every returned
descriptor, whether from the adapter scan or from the bluetoothctl
fallback, has a name containing Muse. -/
theorem list_muses_resolved_names (b : RBackend) (scan : ScanOutcome)
    (btLines : List (List Char)) (ds : List DeviceDesc) (fb : Bool)
    (h : list_muses_resolved b scan btLines = ListMusesResult.muses ds fb) :
    ∀ d ∈ ds, seqIn museL d.name = true := by
  cases b <;> cases scan <;> simp [list_muses_resolved] at h
  case gatt.ok devices => exact h.1 ▸ adapterFilter_names devices
  case gatt.bleError => exact h.1 ▸ parseBtctl_names btLines
  case bleak.ok devices => exact h.1 ▸ adapterFilter_names devices
  case bgapi.ok devices => exact h.1 ▸ adapterFilter_names devices

/-- C9: every device list returned by discovery, through any backend path or
the bluetoothctl fallback, contains only entries whose name carries the
product-identifier substring Muse; entries with a missing or non-matching
name are never returned. -/
theorem discovery_names_contain_muse (backendReq : Backend)
    (btctlAvailable : Bool) (resolve : Backend → RBackend) (scan : ScanOutcome)
    (btLines : List (List Char)) (ds : List DeviceDesc) (fb : Bool)
    (h : list_muses backendReq btctlAvailable resolve scan btLines =
      ListMusesResult.muses ds fb) :
    ∀ d ∈ ds, seqIn museL d.name = true := by
  unfold list_muses at h
  split at h
  · simp only [ListMusesResult.muses.injEq] at h
    exact h.1 ▸ parseBtctl_names btLines
  · exact list_muses_resolved_names _ _ _ _ _ h

/-- Witness for discovery_names_contain_muse: the bluetoothctl path run on a
single concrete output line. -/
theorem discovery_names_contain_muse_witness :
    seqIn museL (DeviceDesc.mk museL
      ['0', '0', ':', '1', '1', ':', '2', '2', ':', '3', '3', ':', '4', '4',
       ':', '5', '5']).name = true :=
  discovery_names_contain_muse Backend.auto true (fun _ => RBackend.gatt)
    (ScanOutcome.ok [])
    [['M', 'u', 's', 'e', ' ', '0', '0', ':', '1', '1', ':', '2', '2', ':',
      '3', '3', ':', '4', '4', ':', '5', '5']]
    [⟨museL, ['0', '0', ':', '1', '1', ':', '2', '2', ':', '3', '3', ':',
      '4', '4', ':', '5', '5']⟩] false (by decide) _ (by decide)

/-- C7: device resolution. With a (truthy) name, find_muse returns only an
exact name match drawn from the discovered list; with no name it returns
the first discovered device if any.  On the non-bluemuse path of stream
with no usable address, an unresolved device terminates the call right
after discovery: no channel is opened, no session is constructed, no
connect is attempted; a resolved device enters the connecting phase. -/
theorem stream_device_resolution (muses : List DeviceDesc) :
    (∀ n d, n.isEmpty = false → find_muse (some n) muses = some d →
      d.name = n ∧ d ∈ muses) ∧
    (find_muse none muses = muses.head?) ∧
    (∀ a pushes didConnect exit, noModality a = false →
      a.backend ≠ Backend.bluemuse → truthy a.address = false →
      find_muse a.name muses = none →
      stream a muses pushes didConnect exit = [Ev.discover] ∧
      (∀ m, Ev.openChannel m ∉ stream a muses pushes didConnect exit) ∧
      (∀ cbs, Ev.constructSession cbs ∉ stream a muses pushes didConnect exit) ∧
      Ev.connect ∉ stream a muses pushes didConnect exit) ∧
    (∀ a pushes didConnect exit, noModality a = false →
      a.backend ≠ Backend.bluemuse → truthy a.address = false →
      (find_muse a.name muses).isSome = true →
      stream a muses pushes didConnect exit =
        Ev.discover :: connectedPhase a pushes didConnect exit) := by
  refine ⟨?_, rfl, ?_, ?_⟩
  · intro n d hne hfind
    simp only [find_muse, hne, Bool.not_false, if_pos] at hfind
    refine ⟨?_, List.mem_of_find?_eq_some hfind⟩
    have := List.find?_some hfind
    simpa using this
  · intro a pushes didConnect exit hmod hb haddr hfind
    simp [stream, hmod, hb, haddr, hfind]
  · intro a pushes didConnect exit hmod hb haddr hsome
    obtain ⟨d, hd⟩ := Option.isSome_iff_exists.mp hsome
    simp [stream, hmod, hb, haddr, hd]

/-- Witness for stream_device_resolution: an exact name match on a singleton
discovery result, and the terminating trace when nothing resolves. -/
theorem stream_device_resolution_witness :
    (DeviceDesc.mk museL ['X']).name = museL ∧
      DeviceDesc.mk museL ['X'] ∈ [DeviceDesc.mk museL ['X']] :=
  (stream_device_resolution [DeviceDesc.mk museL ['X']]).1 museL
    (DeviceDesc.mk museL ['X']) (by decide) (by decide)

/-- With an outlet that never fails, the main-path loop pushes every item in
order, pairing item j with the timestamp at position i plus j, raises no
exception, and issues exactly one push per item. -/
theorem runMain_ok (ts : List Int) (cols : List (List Int)) :
    ∀ i k : Nat,
      (runMain (fun _ => true) ts cols i k).2.2 = false ∧
      (runMain (fun _ => true) ts cols i k).1.length = cols.length ∧
      ∀ (j : Nat) (col : List Int), cols[j]? = some col →
        (runMain (fun _ => true) ts cols i k).1[j]? =
          some (⟨PVal.ints col, ts[i + j]?, false⟩ : Push) := by
  induction cols with
  | nil =>
    intro i k
    exact ⟨rfl, rfl, fun j col hj => by simp at hj⟩
  | cons c rest ih =>
    intro i k
    have h := ih (i + 1) (k + 1)
    simp only [runMain, if_true]
    refine ⟨h.1, by simp [h.2.1], ?_⟩
    intro j col hj
    cases j with
    | zero =>
      simp only [List.getElem?_cons_zero] at hj ⊢
      cases hj
      simp
    | succ j' =>
      simp only [List.getElem?_cons_succ] at hj ⊢
      have e : i + (j' + 1) = (i + 1) + j' := by omega
      rw [e]
      exact h.2.2 j' col hj

/-- Every push issued by the main-path loop is a main push, not a fallback
push. -/
theorem runMain_fb_false (ok : Nat → Bool) (ts : List Int)
    (cols : List (List Int)) :
    ∀ i k, ∀ p ∈ (runMain ok ts cols i k).1, p.fb = false := by
  induction cols with
  | nil => intro i k p hp; simp [runMain] at hp
  | cons c rest ih =>
    intro i k p hp
    by_cases hk : ok k = true
    · simp only [runMain, hk, if_true, List.mem_cons] at hp
      rcases hp with rfl | hp
      · rfl
      · exact ih (i + 1) (k + 1) p hp
    · simp only [runMain, hk, if_false, Bool.false_eq_true, List.mem_singleton] at hp
      subst hp
      rfl

/-- With an outlet that never fails, the main-path loop raises no
exception. -/
theorem runMain_noexc (ok : Nat → Bool) (hok : ∀ k, ok k = true)
    (ts : List Int) (cols : List (List Int)) :
    ∀ i k, (runMain ok ts cols i k).2.2 = false := by
  induction cols with
  | nil => intro i k; rfl
  | cons c rest ih =>
    intro i k
    simp only [runMain, hok k, if_true]
    exact ih (i + 1) (k + 1)

/-- Every push issued by the 2-D fallback loop is marked as a fallback
push. -/
theorem runFb_fb_true (ok : Nat → Bool) (ts : List Int) (wall : Int)
    (cols : List (List Int)) :
    ∀ i k, ∀ p ∈ runFb ok ts wall cols i k, p.fb = true := by
  induction cols with
  | nil => intro i k p hp; simp [runFb] at hp
  | cons c rest ih =>
    intro i k p hp
    by_cases hk : ok k = true
    · simp only [runFb, hk, if_true, List.mem_cons] at hp
      rcases hp with rfl | hp
      · rfl
      · exact ih (i + 1) (k + 1) p hp
    · simp only [runFb, hk, if_false, Bool.false_eq_true, List.mem_singleton] at hp
      subst hp
      rfl

/-- Complete characterization of the 2-D fallback loop started at column
base i with call number k: it never attempts more pushes than there are
columns; its j-th attempt pushes column j paired with the timestamp-vector
entry at position i plus j when present and the wall clock otherwise; it
continues past an attempt only when that attempt succeeded (a fallback
failure drops the rest); and it keeps attempting the next column as long as
every earlier fallback attempt succeeded, so with no fallback failure every
column is re-pushed. -/
theorem runFb_spec (ok : Nat → Bool) (ts : List Int) (wall : Int)
    (cols : List (List Int)) :
    ∀ i k : Nat,
      (runFb ok ts wall cols i k).length ≤ cols.length ∧
      (∀ (j : Nat) (col : List Int), cols[j]? = some col →
        j < (runFb ok ts wall cols i k).length →
        (runFb ok ts wall cols i k)[j]? =
          some (⟨PVal.ints col, some (ts.getD (i + j) wall), true⟩ : Push)) ∧
      (∀ j : Nat, j + 1 < (runFb ok ts wall cols i k).length →
        ok (k + j) = true) ∧
      (∀ j : Nat, j < cols.length → (∀ d : Nat, d < j → ok (k + d) = true) →
        j < (runFb ok ts wall cols i k).length) := by
  induction cols with
  | nil =>
    intro i k
    refine ⟨Nat.le_refl 0, ?_, ?_, ?_⟩
    · intro j col hcol hj; simp [runFb] at hj
    · intro j hj; simp [runFb] at hj
    · intro j hj _; simp at hj
  | cons c rest ih =>
    intro i k
    by_cases hk : ok k = true
    · have h := ih (i + 1) (k + 1)
      simp only [runFb, hk, if_true]
      refine ⟨?_, ?_, ?_, ?_⟩
      · simpa using h.1
      · intro j col hcol hj
        cases j with
        | zero =>
          simp only [List.getElem?_cons_zero] at hcol ⊢
          cases hcol
          simp
        | succ j' =>
          simp only [List.getElem?_cons_succ] at hcol ⊢
          have hj' : j' < (runFb ok ts wall rest (i + 1) (k + 1)).length := by
            simpa using hj
          have e : i + (j' + 1) = (i + 1) + j' := by omega
          rw [e]
          exact h.2.1 j' col hcol hj'
      · intro j hj
        cases j with
        | zero => simpa using hk
        | succ j' =>
          have hj' : j' + 1 < (runFb ok ts wall rest (i + 1) (k + 1)).length := by
            simpa using hj
          have e : k + (j' + 1) = (k + 1) + j' := by omega
          rw [e]
          exact h.2.2.1 j' hj'
      · intro j hjlen hprev
        cases j with
        | zero => simp
        | succ j' =>
          have hj' : j' < rest.length := by simpa using hjlen
          have hprev' : ∀ d : Nat, d < j' → ok ((k + 1) + d) = true := by
            intro d hd
            have hv := hprev (d + 1) (by omega)
            have e : k + (d + 1) = (k + 1) + d := by omega
            rw [e] at hv
            exact hv
          have := h.2.2.2 j' hj' hprev'
          simpa using this
    · have hk' : ok k = false := by simpa using hk
      simp only [runFb, hk', Bool.false_eq_true, if_false]
      refine ⟨?_, ?_, ?_, ?_⟩
      · simp
      · intro j col hcol hj
        cases j with
        | zero =>
          simp only [List.getElem?_cons_zero] at hcol
          cases hcol
          simp
        | succ j' => simp at hj
      · intro j hj; simp at hj
      · intro j hjlen hprev
        cases j with
        | zero => simp
        | succ j' =>
          exfalso
          have h0 := hprev 0 (by omega)
          rw [Nat.add_zero] at h0
          rw [hk'] at h0
          exact absurd h0 (by decide)

/-- The call counter returned by the main-path loop is the starting counter
plus the number of attempted pushes, so the fallback loop starts numbering
right after the main attempts. -/
theorem runMain_counter (ok : Nat → Bool) (ts : List Int)
    (cols : List (List Int)) :
    ∀ i k : Nat,
      (runMain ok ts cols i k).2.1 = k + (runMain ok ts cols i k).1.length := by
  induction cols with
  | nil => intro i k; simp [runMain]
  | cons c rest ih =>
    intro i k
    by_cases hk : ok k = true
    · simp only [runMain, hk, if_true]
      rw [ih (i + 1) (k + 1)]
      simp only [List.length_cons]
      omega
    · have hk' : ok k = false := by simpa using hk
      simp only [runMain, hk', Bool.false_eq_true, if_false]
      simp

/-- Splitting the router trace of a 2-D batch: the main-path filter is
exactly the main loop output, and the fallback filter is exactly the
fallback loop output when the main loop raised and empty when it did
not. -/
theorem fixed_push_arr2_split (ok : Nat → Bool) (wall : Int)
    (cols : List (List Int)) (ts : List Int) :
    mainPushes ok wall (NpData.arr2 cols) ts = (runMain ok ts cols 0 0).1 ∧
    ((runMain ok ts cols 0 0).2.2 = true →
      fbPushes ok wall (NpData.arr2 cols) ts =
        runFb ok ts wall cols 0 (runMain ok ts cols 0 0).2.1) ∧
    ((runMain ok ts cols 0 0).2.2 = false →
      fbPushes ok wall (NpData.arr2 cols) ts = []) := by
  have hmainfilter :
      (runMain ok ts cols 0 0).1.filter (fun p => !p.fb) =
        (runMain ok ts cols 0 0).1 :=
    List.filter_eq_self.mpr (fun p hp => by
      simp [runMain_fb_false ok ts cols 0 0 p hp])
  have hmainfb :
      (runMain ok ts cols 0 0).1.filter (fun p => p.fb) = [] :=
    List.filter_eq_nil_iff.mpr (fun p hp => by
      simp [runMain_fb_false ok ts cols 0 0 p hp])
  have hfbfilter : ∀ k0 : Nat,
      (runFb ok ts wall cols 0 k0).filter (fun p => p.fb) =
        runFb ok ts wall cols 0 k0 :=
    fun k0 => List.filter_eq_self.mpr
      (fun p hp => runFb_fb_true ok ts wall cols 0 k0 p hp)
  have hfbmain : ∀ k0 : Nat,
      (runFb ok ts wall cols 0 k0).filter (fun p => !p.fb) = [] :=
    fun k0 => List.filter_eq_nil_iff.mpr (fun p hp => by
      simp [runFb_fb_true ok ts wall cols 0 k0 p hp])
  refine ⟨?_, ?_, ?_⟩
  · by_cases hexc : (runMain ok ts cols 0 0).2.2 = true
    · simp only [mainPushes, fixed_push, hexc, if_true, List.filter_append,
        hmainfilter, hfbmain, List.append_nil]
    · have hexc' : (runMain ok ts cols 0 0).2.2 = false := by simpa using hexc
      simp only [mainPushes, fixed_push, hexc', Bool.false_eq_true, if_false,
        hmainfilter]
  · intro hexc
    simp only [fbPushes, fixed_push, hexc, if_true, List.filter_append,
      hmainfb, hfbfilter, List.nil_append]
  · intro hexc
    simp only [fbPushes, fixed_push, hexc, Bool.false_eq_true, if_false,
      hmainfb]

/-- C4: for a 2-D batch with columns cols routed with a non-failing outlet,
no exception escapes the router, exactly one push per column is issued in
order, column j is paired with the explicit timestamp at position j of the
timestamp vector when it exists, and with no explicit timestamp when the
vector is shorter. -/
theorem fixed_push_2d_routing (cols : List (List Int)) (timestamps : List Int)
    (wall : Int) :
    (fixed_push (fun _ => true) wall (NpData.arr2 cols) timestamps).2 = false ∧
    (fixed_push (fun _ => true) wall (NpData.arr2 cols) timestamps).1.length =
      cols.length ∧
    (∀ (j : Nat) (col : List Int), cols[j]? = some col →
      (fixed_push (fun _ => true) wall (NpData.arr2 cols) timestamps).1[j]? =
        some (⟨PVal.ints col, timestamps[j]?, false⟩ : Push)) ∧
    (∀ (j : Nat), timestamps.length ≤ j → ∀ (col : List Int), cols[j]? = some col →
      (fixed_push (fun _ => true) wall (NpData.arr2 cols) timestamps).1[j]? =
        some (⟨PVal.ints col, none, false⟩ : Push)) := by
  have h := runMain_ok timestamps cols 0 0
  have hfp : fixed_push (fun _ => true) wall (NpData.arr2 cols) timestamps =
      ((runMain (fun _ => true) timestamps cols 0 0).1, false) := by
    simp [fixed_push, h.1]
  rw [hfp]
  refine ⟨rfl, h.2.1, ?_, ?_⟩
  · intro j col hj
    have := h.2.2 j col hj
    simpa using this
  · intro j hlen col hj
    have := h.2.2 j col hj
    rw [Nat.zero_add, List.getElem?_eq_none hlen] at this
    exact this

/-- Witness for fixed_push_2d_routing: a 2-column batch with a 1-entry
timestamp vector; the second push carries no explicit timestamp. -/
theorem fixed_push_2d_routing_witness :
    (fixed_push (fun _ => true) 0 (NpData.arr2 [[1], [2]]) [5]).1[1]? =
      some ⟨PVal.ints [2], none, false⟩ :=
  (fixed_push_2d_routing [[1], [2]] [5] 0).2.2.2 1 (by decide) [2] (by decide)

/-- Counterexample to C3 as stated: with a 2-column 2-D batch, a sufficient
timestamp vector and an outlet whose first push call fails, the router
attempts two fallback pushes, not exactly one, and the first fallback push
carries the first entry of the timestamp vector (10), not a
wall-clock-derived timestamp (the wall clock reads 99). -/
theorem fixed_push_multi_fallback :
    ((fixed_push (fun k => !(k == 0)) 99 (NpData.arr2 [[1], [2]]) [10, 20]).1.filter
        (fun p => p.fb)).length = 2 ∧
    ¬ ((fixed_push (fun k => !(k == 0)) 99 (NpData.arr2 [[1], [2]]) [10, 20]).1.filter
        (fun p => p.fb)).length = 1 ∧
    ((fixed_push (fun k => !(k == 0)) 99 (NpData.arr2 [[1], [2]]) [10, 20]).1.filter
        (fun p => p.fb)).head? = some ⟨PVal.ints [1], some 10, true⟩ ∧
    some (10 : Int) ≠ some (99 : Int) := by decide

/-- C3 amended: any failure during routing is caught locally and never
propagates past the router, whose degraded fallback is characterized
completely: the fallback runs only after a failure; for a 2-D batch the
fallback re-pushes the columns in order after the main pushes, pairing
column j with the timestamp-vector entry at position j when present and a
wall-clock-derived timestamp only otherwise, re-pushing every column as
long as the fallback attempts keep succeeding and dropping the rest of the
batch as soon as a fallback attempt fails; for a 1-D array, a Python list
or an opaque object the fallback is a single push of the data with the
first timestamp when present and a wall-clock-derived one otherwise. -/
theorem fixed_push_boundary (ok : Nat → Bool) (wall : Int) (data : NpData)
    (ts : List Int) :
    (fixed_push ok wall data ts).2 = false ∧
    ((∀ k, ok k = true) → fbPushes ok wall data ts = []) ∧
    (∀ cols : List (List Int), data = NpData.arr2 cols →
      (fixed_push ok wall data ts).1 =
        mainPushes ok wall data ts ++ fbPushes ok wall data ts ∧
      (fbPushes ok wall data ts).length ≤ cols.length ∧
      (∀ (j : Nat) (col : List Int), cols[j]? = some col →
        j < (fbPushes ok wall data ts).length →
        (fbPushes ok wall data ts)[j]? =
          some (⟨PVal.ints col, some (ts.getD j wall), true⟩ : Push)) ∧
      (∀ j : Nat, j + 1 < (fbPushes ok wall data ts).length →
        ok ((mainPushes ok wall data ts).length + j) = true) ∧
      (∀ j : Nat, j < cols.length →
        (∀ d : Nat, d < j → ok ((mainPushes ok wall data ts).length + d) = true) →
        fbPushes ok wall data ts ≠ [] →
        j < (fbPushes ok wall data ts).length)) ∧
    (∀ v : List Int, data = NpData.arr1 v → ok 0 = false →
      (fixed_push ok wall data ts).1 =
        [⟨PVal.ints v, ts.head?, false⟩,
         ⟨PVal.ints v, some (ts.headD wall), true⟩]) ∧
    (∀ samples : List (List Int), data = NpData.pylist samples →
      fbPushes ok wall data ts = [] ∨
      fbPushes ok wall data ts =
        [⟨PVal.wholeList samples, some (ts.headD wall), true⟩]) ∧
    (data = NpData.other → ok 0 = false →
      (fixed_push ok wall data ts).1 =
        [⟨PVal.wholeOther, ts.head?, false⟩,
         ⟨PVal.wholeOther, some (ts.headD wall), true⟩]) := by
  refine ⟨?_, ?_, ?_, ?_, ?_, ?_⟩
  · cases data <;> simp only [fixed_push] <;> split <;> rfl
  · intro hok
    cases data with
    | arr2 cols =>
      exact (fixed_push_arr2_split ok wall cols ts).2.2
        (runMain_noexc ok hok ts cols 0 0)
    | arr1 v => simp [fbPushes, fixed_push, hok 0]
    | pylist samples =>
      have hexc := runMain_noexc ok hok ts samples 0 0
      simp only [fbPushes, fixed_push, hexc, Bool.false_eq_true, if_false]
      exact List.filter_eq_nil_iff.mpr (fun p hp => by
        simp [runMain_fb_false ok ts samples 0 0 p hp])
    | other => simp [fbPushes, fixed_push, hok 0]
  · rintro cols rfl
    have hsplit := fixed_push_arr2_split ok wall cols ts
    have hcnt := runMain_counter ok ts cols 0 0
    rw [Nat.zero_add] at hcnt
    by_cases hexc : (runMain ok ts cols 0 0).2.2 = true
    · have hfb := hsplit.2.1 hexc
      have hspec := runFb_spec ok ts wall cols 0 ((runMain ok ts cols 0 0).2.1)
      refine ⟨?_, ?_, ?_, ?_, ?_⟩
      · rw [hsplit.1, hfb]
        simp only [fixed_push, hexc, if_true]
      · rw [hfb]
        exact hspec.1
      · intro j col hcol hj
        rw [hfb] at hj ⊢
        have := hspec.2.1 j col hcol hj
        simpa using this
      · intro j hj
        rw [hfb] at hj
        rw [hsplit.1, ← hcnt]
        exact hspec.2.2.1 j hj
      · intro j hjlen hprev _
        rw [hfb]
        refine hspec.2.2.2 j hjlen ?_
        intro d hd
        have hv := hprev d hd
        rw [hsplit.1, ← hcnt] at hv
        exact hv
    · have hexc' : (runMain ok ts cols 0 0).2.2 = false := by simpa using hexc
      have hfb := hsplit.2.2 hexc'
      refine ⟨?_, ?_, ?_, ?_, ?_⟩
      · rw [hsplit.1, hfb]
        simp only [fixed_push, hexc', Bool.false_eq_true, if_false,
          List.append_nil]
      · rw [hfb]
        simp
      · intro j col hcol hj
        rw [hfb] at hj
        simp at hj
      · intro j hj
        rw [hfb] at hj
        simp at hj
      · intro j hjlen hprev hne
        exact absurd hfb hne
  · rintro v rfl h0
    simp [fixed_push, h0]
  · rintro samples rfl
    by_cases hexc : (runMain ok ts samples 0 0).2.2 = true
    · right
      have hmainfb :
          (runMain ok ts samples 0 0).1.filter (fun p => p.fb) = [] :=
        List.filter_eq_nil_iff.mpr (fun p hp => by
          simp [runMain_fb_false ok ts samples 0 0 p hp])
      simp only [fbPushes, fixed_push, hexc, if_true, List.filter_append,
        hmainfb, List.nil_append]
      simp
    · left
      have hexc' : (runMain ok ts samples 0 0).2.2 = false := by
        simpa using hexc
      simp only [fbPushes, fixed_push, hexc', Bool.false_eq_true, if_false]
      exact List.filter_eq_nil_iff.mpr (fun p hp => by
        simp [runMain_fb_false ok ts samples 0 0 p hp])
  · rintro rfl h0
    simp [fixed_push, h0]

/-- Witness for fixed_push_boundary on the counterexample batch: its second
fallback push is column 1 paired with the timestamp-vector entry 20. -/
theorem fixed_push_boundary_witness :
    (fbPushes (fun k => !(k == 0)) 99 (NpData.arr2 [[1], [2]]) [10, 20])[1]? =
      some (⟨PVal.ints [2], some 20, true⟩ : Push) :=
  ((fixed_push_boundary (fun k => !(k == 0)) 99 (NpData.arr2 [[1], [2]])
    [10, 20]).2.2.1 [[1], [2]] rfl).2.2.1 1 [2] (by decide) (by decide)

/-- The enabled-modality list never repeats a modality. -/
theorem enabledChannels_nodup (a : StreamArgs) : (enabledChannels a).Nodup := by
  obtain ⟨ad, b, nm, p, ac, g, e, r⟩ := a
  simp only [enabledChannels]
  cases e <;> cases p <;> cases ac <;> cases g <;> simp

/-- The closeChannel event constructor is injective. -/
theorem closeChannel_injective : Function.Injective Ev.closeChannel := by
  intro x y h
  injection h

/-- Events preceding the teardown suffix on the successfully connected path:
possibly a discovery, the channel opens, session construction, connect, the
connected and streaming reports, the routed pushes and the loop-exit
report. -/
def streamPre (dpre : List Ev) (E : List Modality) (pushes : List Modality)
    (exit : ExitCause) : List Ev :=
  dpre ++ (E.map Ev.openChannel ++
    ([Ev.constructSession E, Ev.connect, Ev.reportConnected, Ev.start,
      Ev.reportStreaming] ++ pushes.map Ev.push ++ exitEvents exit))

/-- The connected phase with a successful connect splits into the prefix and
the teardown suffix: stop, disconnect, the disconnect report, then the
channel closes. -/
theorem connectedPhase_decomp (a : StreamArgs) (pushes : List Modality)
    (exit : ExitCause) :
    connectedPhase a pushes true exit =
      streamPre [] (enabledChannels a) pushes exit ++
      [Ev.stop, Ev.disconnect, Ev.reportDisconnected] ++
      (enabledChannels a).map Ev.closeChannel := by
  simp [connectedPhase, streamPre]

/-- The prefix of the connected path contains no stop, no disconnect and no
channel close, and contains exactly the opens of the listed modalities. -/
theorem streamPre_no_teardown (dpre : List Ev)
    (hdpre : dpre = [] ∨ dpre = [Ev.discover]) (E : List Modality)
    (pushes : List Modality) (exit : ExitCause) :
    Ev.stop ∉ streamPre dpre E pushes exit ∧
    Ev.disconnect ∉ streamPre dpre E pushes exit ∧
    (∀ m, Ev.closeChannel m ∉ streamPre dpre E pushes exit) ∧
    (∀ m, Ev.openChannel m ∈ streamPre dpre E pushes exit ↔ m ∈ E) := by
  rcases hdpre with rfl | rfl <;> cases exit <;>
    simp [streamPre, exitEvents]

/-- On the non-bluemuse path with a resolvable device, the trace of stream
with a successful connect splits into a teardown-free prefix and the
teardown suffix. -/
theorem stream_true_decomp (a : StreamArgs) (muses : List DeviceDesc)
    (pushes : List Modality) (exit : ExitCause)
    (hmod : noModality a = false) (hb : a.backend ≠ Backend.bluemuse)
    (hres : truthy a.address = true ∨ (find_muse a.name muses).isSome = true) :
    ∃ dpre, (dpre = [] ∨ dpre = [Ev.discover]) ∧
      stream a muses pushes true exit =
        streamPre dpre (enabledChannels a) pushes exit ++
        [Ev.stop, Ev.disconnect, Ev.reportDisconnected] ++
        (enabledChannels a).map Ev.closeChannel := by
  by_cases ht : truthy a.address = true
  · refine ⟨[], Or.inl rfl, ?_⟩
    rw [show stream a muses pushes true exit = connectedPhase a pushes true exit
      by simp [stream, hmod, hb, ht]]
    exact connectedPhase_decomp a pushes exit
  · have ht' : truthy a.address = false := by simpa using ht
    have hsome : (find_muse a.name muses).isSome = true := by
      rcases hres with h | h
      · exact absurd h ht
      · exact h
    obtain ⟨d, hd⟩ := Option.isSome_iff_exists.mp hsome
    refine ⟨[Ev.discover], Or.inr rfl, ?_⟩
    rw [show stream a muses pushes true exit =
        Ev.discover :: connectedPhase a pushes true exit
      by simp [stream, hmod, hb, ht', hd]]
    rw [connectedPhase_decomp a pushes exit]
    simp [streamPre]

/-- C1: on every run that reaches the streaming state, whichever of the
three causes ends the supervisor loop, the trace decomposes into a prefix
containing no teardown event followed by stop, then disconnect, then one
close per opened channel; in particular stop and disconnect each occur
exactly once and every opened channel is closed exactly once, in that
order. -/
theorem stream_teardown_exactly_once (a : StreamArgs) (muses : List DeviceDesc)
    (pushes : List Modality) (exit : ExitCause)
    (hmod : noModality a = false) (hb : a.backend ≠ Backend.bluemuse)
    (hres : truthy a.address = true ∨ (find_muse a.name muses).isSome = true) :
    ∃ pre,
      stream a muses pushes true exit =
        pre ++ [Ev.stop, Ev.disconnect, Ev.reportDisconnected] ++
          (enabledChannels a).map Ev.closeChannel ∧
      Ev.stop ∉ pre ∧ Ev.disconnect ∉ pre ∧
      (∀ m, Ev.closeChannel m ∉ pre) ∧
      (∀ m, Ev.openChannel m ∈ pre ↔ m ∈ enabledChannels a) ∧
      (stream a muses pushes true exit).count Ev.stop = 1 ∧
      (stream a muses pushes true exit).count Ev.disconnect = 1 ∧
      ∀ m ∈ enabledChannels a,
        (stream a muses pushes true exit).count (Ev.closeChannel m) = 1 := by
  obtain ⟨dpre, hdpre, heq⟩ :=
    stream_true_decomp a muses pushes exit hmod hb hres
  obtain ⟨hstop, hdisc, hclose, hopen⟩ :=
    streamPre_no_teardown dpre hdpre (enabledChannels a) pushes exit
  have hndE : (enabledChannels a).Nodup := enabledChannels_nodup a
  have hstop_cl : Ev.stop ∉ (enabledChannels a).map Ev.closeChannel := by simp
  have hdisc_cl : Ev.disconnect ∉ (enabledChannels a).map Ev.closeChannel := by
    simp
  refine ⟨streamPre dpre (enabledChannels a) pushes exit, heq, hstop, hdisc,
    hclose, hopen, ?_, ?_, ?_⟩
  · rw [heq, List.count_append, List.count_append,
      List.count_eq_zero_of_not_mem hstop,
      List.count_eq_zero_of_not_mem hstop_cl]
    decide
  · rw [heq, List.count_append, List.count_append,
      List.count_eq_zero_of_not_mem hdisc,
      List.count_eq_zero_of_not_mem hdisc_cl]
    decide
  · intro m hm
    have hmid : Ev.closeChannel m ∉
        [Ev.stop, Ev.disconnect, Ev.reportDisconnected] := by simp
    rw [heq, List.count_append, List.count_append,
      List.count_eq_zero_of_not_mem (hclose m),
      List.count_eq_zero_of_not_mem hmid,
      List.count_map_of_injective _ Ev.closeChannel closeChannel_injective,
      List.count_eq_one_of_mem hndE hm]

/-- Witness for stream_teardown_exactly_once: a direct address with EEG only
and a cancellation exit; stop occurs exactly once. -/
theorem stream_teardown_exactly_once_witness :
    (stream ⟨some ['A'], Backend.gatt, none, false, false, false, false, 1⟩
      [] [] true ExitCause.interrupt).count Ev.stop = 1 := by
  obtain ⟨pre, h1, h2, h3, h4, h5, h6, h7, h8⟩ :=
    stream_teardown_exactly_once
      ⟨some ['A'], Backend.gatt, none, false, false, false, false, 1⟩
      [] [] ExitCause.interrupt (by decide) (by decide) (Or.inl (by decide))
  exact h6

/-- Events preceding the failure report on the failed-connect path: possibly
a discovery, the channel opens, session construction and connect. -/
def failPre (dpre : List Ev) (E : List Modality) : List Ev :=
  dpre ++ (E.map Ev.openChannel ++ [Ev.constructSession E, Ev.connect])

/-- The connected phase with a failed connect splits into the prefix, the
failure report and the channel closes. -/
theorem connectedPhase_false_decomp (a : StreamArgs) (pushes : List Modality)
    (exit : ExitCause) :
    connectedPhase a pushes false exit =
      failPre [] (enabledChannels a) ++ [Ev.reportFailedConnect] ++
      (enabledChannels a).map Ev.closeChannel := by
  simp [connectedPhase, failPre]

/-- On the non-bluemuse path with a resolvable device, the trace of stream
with a failed connect splits into the open/construct/connect prefix, the
failure report and the channel closes. -/
theorem stream_false_decomp (a : StreamArgs) (muses : List DeviceDesc)
    (pushes : List Modality) (exit : ExitCause)
    (hmod : noModality a = false) (hb : a.backend ≠ Backend.bluemuse)
    (hres : truthy a.address = true ∨ (find_muse a.name muses).isSome = true) :
    ∃ dpre, (dpre = [] ∨ dpre = [Ev.discover]) ∧
      stream a muses pushes false exit =
        failPre dpre (enabledChannels a) ++ [Ev.reportFailedConnect] ++
        (enabledChannels a).map Ev.closeChannel := by
  by_cases ht : truthy a.address = true
  · refine ⟨[], Or.inl rfl, ?_⟩
    rw [show stream a muses pushes false exit = connectedPhase a pushes false exit
      by simp [stream, hmod, hb, ht]]
    exact connectedPhase_false_decomp a pushes exit
  · have ht' : truthy a.address = false := by simpa using ht
    have hsome : (find_muse a.name muses).isSome = true := by
      rcases hres with h | h
      · exact absurd h ht
      · exact h
    obtain ⟨d, hd⟩ := Option.isSome_iff_exists.mp hsome
    refine ⟨[Ev.discover], Or.inr rfl, ?_⟩
    rw [show stream a muses pushes false exit =
        Ev.discover :: connectedPhase a pushes false exit
      by simp [stream, hmod, hb, ht', hd]]
    rw [connectedPhase_false_decomp a pushes exit]
    simp [failPre]

/-- Counterexample to C2 as stated: with a direct address, EEG only and a
failing connect, the trace reports the connect failure at position 3 and
closes the channel at position 4, so the channel is closed after, not
before, the failure is reported. -/
theorem stream_close_after_failure_report :
    stream ⟨some ['A'], Backend.gatt, none, false, false, false, false, 1⟩
        [] [] false ExitCause.stale =
      [Ev.openChannel Modality.eeg, Ev.constructSession [Modality.eeg],
       Ev.connect, Ev.reportFailedConnect, Ev.closeChannel Modality.eeg] ∧
    List.indexOf Ev.reportFailedConnect
      (stream ⟨some ['A'], Backend.gatt, none, false, false, false, false, 1⟩
        [] [] false ExitCause.stale) = 3 ∧
    List.indexOf (Ev.closeChannel Modality.eeg)
      (stream ⟨some ['A'], Backend.gatt, none, false, false, false, false, 1⟩
        [] [] false ExitCause.stale) = 4 ∧
    ¬ List.indexOf (Ev.closeChannel Modality.eeg)
        (stream ⟨some ['A'], Backend.gatt, none, false, false, false, false, 1⟩
          [] [] false ExitCause.stale) <
      List.indexOf Ev.reportFailedConnect
        (stream ⟨some ['A'], Backend.gatt, none, false, false, false, false, 1⟩
          [] [] false ExitCause.stale) := by decide

/-- C2 amended: when connect exhausts its retries and fails, the trace ends
with the failure report followed by exactly one close of every channel
opened during the connecting phase (the closes happen at function exit,
after the report, not before), and no push call is ever issued on any
channel. -/
theorem stream_connect_failure_teardown (a : StreamArgs)
    (muses : List DeviceDesc) (pushes : List Modality) (exit : ExitCause)
    (hmod : noModality a = false) (hb : a.backend ≠ Backend.bluemuse)
    (hres : truthy a.address = true ∨ (find_muse a.name muses).isSome = true) :
    ∃ pre,
      stream a muses pushes false exit =
        pre ++ [Ev.reportFailedConnect] ++
          (enabledChannels a).map Ev.closeChannel ∧
      Ev.reportFailedConnect ∉ pre ∧
      (∀ m, Ev.closeChannel m ∉ pre) ∧
      (∀ m, Ev.openChannel m ∈ pre ↔ m ∈ enabledChannels a) ∧
      (∀ m, Ev.push m ∉ stream a muses pushes false exit) ∧
      (∀ m, (stream a muses pushes false exit).count (Ev.push m) = 0) ∧
      ∀ m ∈ enabledChannels a,
        (stream a muses pushes false exit).count (Ev.closeChannel m) = 1 := by
  obtain ⟨dpre, hdpre, heq⟩ :=
    stream_false_decomp a muses pushes exit hmod hb hres
  have hndE : (enabledChannels a).Nodup := enabledChannels_nodup a
  have hrep : Ev.reportFailedConnect ∉ failPre dpre (enabledChannels a) := by
    rcases hdpre with rfl | rfl <;> simp [failPre]
  have hclose : ∀ m, Ev.closeChannel m ∉ failPre dpre (enabledChannels a) := by
    rcases hdpre with rfl | rfl <;> intro m <;> simp [failPre]
  have hopen : ∀ m, Ev.openChannel m ∈ failPre dpre (enabledChannels a) ↔
      m ∈ enabledChannels a := by
    rcases hdpre with rfl | rfl <;> intro m <;> simp [failPre]
  have hpush : ∀ m, Ev.push m ∉ stream a muses pushes false exit := by
    intro m
    rw [heq]
    rcases hdpre with rfl | rfl <;> simp [failPre]
  refine ⟨failPre dpre (enabledChannels a), heq, hrep, hclose, hopen, hpush,
    ?_, ?_⟩
  · intro m
    exact List.count_eq_zero_of_not_mem (hpush m)
  · intro m hm
    have hmid : Ev.closeChannel m ∉ [Ev.reportFailedConnect] := by simp
    rw [heq, List.count_append, List.count_append,
      List.count_eq_zero_of_not_mem (hclose m),
      List.count_eq_zero_of_not_mem hmid,
      List.count_map_of_injective _ Ev.closeChannel closeChannel_injective,
      List.count_eq_one_of_mem hndE hm]

/-- Witness for stream_connect_failure_teardown: with a direct address and
EEG only, the failed-connect trace closes the channel exactly once. -/
theorem stream_connect_failure_teardown_witness :
    (stream ⟨some ['A'], Backend.gatt, none, false, false, false, false, 1⟩
      [] [] false ExitCause.stale).count (Ev.closeChannel Modality.eeg) = 1 := by
  obtain ⟨pre, h1, h2, h3, h4, h5, h6, h7⟩ :=
    stream_connect_failure_teardown
      ⟨some ['A'], Backend.gatt, none, false, false, false, false, 1⟩
      [] [] ExitCause.stale (by decide) (by decide) (Or.inl (by decide))
  exact h7 Modality.eeg (by decide)

end Muselsl
